import Mathlib

/-!
Verification development for the README pattern-learning engine of the
readme_generator repository (source file `src/lib/readme-learning.ts`).

The TypeScript module is shallowly embedded here.  JavaScript strings are
modelled as `List Char`, JavaScript numbers occurring in this module as `ℚ`
(all arithmetic performed by the module on them is exact field arithmetic on
small values), possibly-absent fields as `Option`, and code that can throw a
`TypeError` as `Except Str`.  The process-wide `Map` used as the pattern
store is modelled as an association list threaded explicitly through the
operations; JavaScript `Array.prototype.sort` (required to be stable by the
ECMAScript specification) is modelled by a stable insertion sort, whose
output coincides with that of every stable sorting algorithm.
-/

namespace ReadmeLearning

/-- JavaScript strings are modelled as lists of characters. -/
abbrev Str := List Char

/-- Embed a Lean string literal as a model string. -/
def str (s : String) : Str := s.toList

/-- Whitespace test used by the embedding for `trim`, the regex class
backslash-s and `split` on whitespace (space, tab, newline, carriage return,
vertical tab, form feed, no-break space, BOM). -/
def jsWs (c : Char) : Bool :=
  c = ' ' || c = '\t' || c = '\n' || c = '\r' ||
  c = Char.ofNat 11 || c = Char.ofNat 12 || c = Char.ofNat 0xa0 || c = Char.ofNat 0xfeff

/-- Model of `String.prototype.trim`: drop whitespace from both ends. -/
def trimChars (s : Str) : Str :=
  ((s.dropWhile jsWs).reverse.dropWhile jsWs).reverse

/-- Model of `String.prototype.toLowerCase` (ASCII range, which is all the
module compares). -/
def lowerStr (s : Str) : Str := s.map Char.toLower

/-- Rendering of a possibly-undefined string field inside a JavaScript
template literal: `undefined` prints as the text "undefined". -/
def jsStr : Option Str → Str
  | none => str "undefined"
  | some s => s

/-- Model of the JavaScript `||` default idiom on a possibly-undefined string:
both `undefined` and the empty string are falsy. -/
def jsOr (o : Option Str) (d : Str) : Str :=
  match o with
  | none => d
  | some s => if s = [] then d else s

/-- Model of `String.prototype.split("\n")`. -/
def splitLines : Str → List Str
  | [] => [[]]
  | c :: rest =>
      if c = '\n' then [] :: splitLines rest
      else
        match splitLines rest with
        | [] => [[c]]
        | l :: ls => (c :: l) :: ls

/-- Does `pat` occur at the start of `hay`? (helper for `includes`). -/
def hasPrefixL : Str → Str → Bool
  | _, [] => true
  | [], _ :: _ => false
  | c :: cs, p :: ps => c = p && hasPrefixL cs ps

/-- Index of the first occurrence of `pat` in `hay`, if any. -/
def findSub : Str → Str → Option Nat
  | [], pat => if hasPrefixL [] pat then some 0 else none
  | c :: rest, pat =>
      if hasPrefixL (c :: rest) pat then some 0
      else (findSub rest pat).map (· + 1)

/-- Model of `String.prototype.includes`. -/
def containsSub (hay pat : Str) : Bool := (findSub hay pat).isSome

section DataModel

/-- One heading-delimited region of a Markdown document
(interface `SectionPattern` of the source). -/
structure SectionPattern where
  title : Str
  level : Nat
  content : List Str
  frequency : Nat
  position : ℚ
  keywords : List Str
deriving Repr, DecidableEq

/-- Document-wide stylistic fingerprint (interface `StylePattern`). -/
structure StylePattern where
  usesEmoji : Bool
  usesShields : Bool
  usesCodeBlocks : Bool
  usesTables : Bool
  usesImages : Bool
  averageSectionLength : ℚ
  headerStyle : Str
deriving Repr, DecidableEq

/-- The unit stored and matched (interface `ReadmePattern`). -/
structure ReadmePattern where
  sections : List SectionPattern
  style : StylePattern
  frequency : Nat
deriving Repr, DecidableEq

/-- Owner record of a repository; the synthesis code reads `owner.login`. -/
structure Owner where
  login : Str
deriving Repr, DecidableEq

/-- License record of a repository; the code reads `license?.name`. -/
structure RepoLicense where
  name : Str
deriving Repr, DecidableEq

/-- Runtime repository record.  The TypeScript `Repository` interface declares
most fields as required, but the claims under verification concern records in
which a field may unexpectedly be absent at run time, so every field read by
this module is modelled as optional.  Fields the module never reads are
omitted. -/
structure Repository where
  name : Option Str
  full_name : Option Str
  description : Option Str
  language : Option Str
  topics : Option (List Str)
  license : Option RepoLicense
  owner : Option Owner
deriving Repr, DecidableEq

/-- The process-wide pattern store `learnedPatterns : Map<string, ReadmePattern[]>`,
modelled as an insertion-ordered association list. -/
abbrev Store := List (Str × List ReadmePattern)

end DataModel

/-- Model of `Map.prototype.get` combined with `has` (first binding wins). -/
def lookupStore : Store → Str → Option (List ReadmePattern)
  | [], _ => none
  | (k, v) :: rest, c => if k = c then some v else lookupStore rest c

/-- The category list of the store, with `[]` for an absent key. -/
def lookupList (store : Store) (c : Str) : List ReadmePattern :=
  (lookupStore store c).getD []

/-- Model of `Map.prototype.set`: overwrite the first binding of the key, or
append a new binding (JavaScript `Map` preserves insertion order). -/
def setStore : Store → Str → List ReadmePattern → Store
  | [], k, v => [(k, v)]
  | (k', v') :: rest, k, v =>
      if k' = k then (k', v) :: rest else (k', v') :: setStore rest k v

section Parser

/-- Match of the heading regex (up-to-six hashes, then mandatory whitespace,
then a non-empty remainder) against one line, returning the heading level and
the title capture.  The greedy whitespace run backtracks by exactly one
character when the remainder of the line is all whitespace, which is how the
backtracking regex engine assigns the capture groups. -/
def parseHeading (line : Str) : Option (Nat × Str) :=
  let h := (line.takeWhile (· = '#')).length
  if h < 1 ∨ 6 < h then none
  else
    let rest := line.drop h
    let w := (rest.takeWhile jsWs).length
    if w = 0 then none
    else if w = rest.length then
      if 2 ≤ w then some (h, rest.drop (w - 1)) else none
    else some (h, rest.drop w)

/-- Model of `split(/\s+/)`: maximal whitespace runs separate the tokens, and
a leading or trailing run contributes an empty token, as in JavaScript. -/
def splitWsRuns : Str → List Str
  | [] => [[]]
  | c :: rest =>
      if jsWs c then [] :: splitWsRuns (rest.dropWhile jsWs)
      else
        match splitWsRuns rest with
        | [] => [[c]]
        | t :: ts => (c :: t) :: ts
termination_by s => s.length
decreasing_by
  · simp only [List.length_cons]
    exact Nat.lt_succ_of_le (List.dropWhile_sublist _).length_le
  · simp

/-- Word characters of the regex class backslash-w. -/
def isWordChar (c : Char) : Bool :=
  ('a' ≤ c && c ≤ 'z') || ('A' ≤ c && c ≤ 'Z') || ('0' ≤ c && c ≤ '9') || c = '_'

/-- The stop-word set of `extractKeywords`. -/
def commonWords : List Str :=
  [str "the", str "a", str "an", str "and", str "or", str "but", str "in",
   str "on", str "at", str "to", str "for", str "with", str "by", str "about",
   str "as", str "of"]

/-- Source function `extractKeywords`: lowercase, strip characters that are
neither word characters nor whitespace, split on whitespace, and keep the
words of length at least three that are not stop words. -/
def extractKeywords (text : Str) : List Str :=
  let cleanText := (lowerStr text).filter (fun c => isWordChar c || jsWs c)
  let words := splitWsRuns cleanText
  words.filter (fun w => 2 < w.length && !(commonWords.contains w))

/-- The implicit section created for content that precedes every heading. -/
def introSection : SectionPattern :=
  { title := str "Introduction", level := 0, content := [], frequency := 1,
    position := 0, keywords := [] }

/-- A fresh section opened by a heading line: its position is the number of
sections already closed. -/
def mkHeadingSection (title : Str) (level : Nat) (done : Nat) : SectionPattern :=
  { title := title, level := level, content := [], frequency := 1,
    position := (done : ℚ), keywords := extractKeywords title }

/-- The line-scanning loop of `analyzeReadmeStructure` (source lines 50-96):
`cur` is the section being built, `curContent` its accumulated lines, `secs`
the sections already closed. -/
def parseLoop : List Str → Option SectionPattern → List Str → List SectionPattern →
    List SectionPattern
  | [], cur, curContent, secs =>
      match cur with
      | none => secs
      | some cs => secs ++ [{ cs with content := curContent }]
  | line :: rest, cur, curContent, secs =>
      match parseHeading line with
      | some (lvl, title) =>
          let secs' :=
            match cur with
            | none => secs
            | some cs => secs ++ [{ cs with content := curContent }]
          parseLoop rest (some (mkHeadingSection title lvl secs'.length)) [] secs'
      | none =>
          match cur with
          | some _ => parseLoop rest cur (curContent ++ [line]) secs
          | none =>
              if trimChars line ≠ [] then parseLoop rest (some introSection) [line] secs
              else parseLoop rest cur curContent secs

/-- Section extraction of `analyzeReadmeStructure`: split into lines and run
the scanning loop. -/
def parseSections (readme : Str) : List SectionPattern :=
  parseLoop (splitLines readme) none [] []

end Parser

section Style

/-- Scanner for the emoji shortcode regex (a colon, then a non-empty run of
letters or underscores, then a colon; the i flag makes letter case
irrelevant, and lowercase letters plus underscore after case folding is what
the class matches). -/
def isShortcodeChar (c : Char) : Bool :=
  ('a' ≤ c.toLower && c.toLower ≤ 'z') || c = '_'

/-- Test for the shortcode regex anywhere in the text. -/
def hasShortcode : Str → Bool
  | [] => false
  | c :: rest =>
      (c = ':' &&
        (let run := rest.takeWhile isShortcodeChar
         !run.isEmpty && (rest.drop run.length).head? = some ':')) ||
      hasShortcode rest

/-- Test for a character in the emoji code-point range of the source regex. -/
def hasEmojiChar (s : Str) : Bool :=
  s.any (fun c => 0x1F300 ≤ c.toNat && c.toNat ≤ 0x1F6FF)

/-- Style analysis of `analyzeReadmeStructure` (source lines 99-107). -/
def analyzeStyle (readme : Str) (sections : List SectionPattern) : StylePattern :=
  { usesEmoji := hasShortcode readme || hasEmojiChar readme
    usesShields := containsSub readme (str "shields.io") ||
      (containsSub readme (str "![") && containsSub readme (str "badge"))
    usesCodeBlocks := containsSub readme (str "```")
    usesTables := containsSub readme (str "|") && containsSub readme (str "---")
    usesImages := containsSub readme (str "![") && !containsSub readme (str "shields.io")
    averageSectionLength :=
      ((sections.foldl (fun sum s => sum + s.content.length) 0 : ℕ) : ℚ) /
        (if sections.length = 0 then 1 else (sections.length : ℚ))
    headerStyle :=
      if containsSub readme (str "===") || containsSub readme (str "---") then str "underline"
      else str "hash" }

/-- Source function `analyzeReadmeStructure`: `null` (here `none`) for an
empty or whitespace-only document, otherwise the parsed pattern with
frequency 1.  The body of the source function cannot itself throw, so the
try/catch around it is inert. -/
def analyzeReadmeStructure (readme : Str) : Option ReadmePattern :=
  if trimChars readme = [] then none
  else
    let sections := parseSections readme
    some { sections := sections, style := analyzeStyle readme sections, frequency := 1 }

end Style

section Similarity

/-- The Levenshtein matrix recurrence of `calculateStringSimilarity`
(source lines 302-327), written as the equivalent structural recursion:
`levDist a b` is exactly the value `matrix[len a][len b]` of the source. -/
def levDist : Str → Str → Nat
  | [], b => b.length
  | a :: as', [] => (a :: as').length
  | x :: xs, y :: ys =>
      let cost : Nat := if x = y then 0 else 1
      min (min (levDist xs (y :: ys) + 1) (levDist (x :: xs) ys + 1))
        (levDist xs ys + cost)
termination_by a b => a.length + b.length
decreasing_by all_goals simp +arith

/-- Source function `calculateStringSimilarity`: 0 when either string is
empty, otherwise 1 minus the normalized Levenshtein distance. -/
def calculateStringSimilarity (str1 str2 : Str) : ℚ :=
  if str1.length = 0 ∨ str2.length = 0 then 0
  else 1 - (levDist str1 str2 : ℚ) / (max str1.length str2.length : ℚ)

/-- The per-section match test of `calculateSectionSimilarity`: titles more
than 0.8 similar after lowercasing, and positions at most 2 apart. -/
def sectionMatches (s1 s2 : SectionPattern) : Bool :=
  decide ((8 : ℚ)/10 < calculateStringSimilarity (lowerStr s1.title) (lowerStr s2.title)) &&
  decide (|s1.position - s2.position| ≤ 2)

/-- JavaScript `Set` construction: keep the first occurrence of each element,
in insertion order. -/
def uniqAux : List Str → List Str → List Str
  | seen, [] => seen
  | seen, x :: xs => uniqAux (if x ∈ seen then seen else seen ++ [x]) xs

/-- Source function `calculateSectionSimilarity`: matched-section count over
the number of distinct lowercase titles on both sides.  The inner loop with
`break` counts each left section at most once, which is the `any`; a 0/0
quotient is `NaN` in the source and 0 here, both of which fail the strict
comparison against the 0.7 threshold. -/
def calculateSectionSimilarity (sections1 sections2 : List SectionPattern) : ℚ :=
  let matchCount := sections1.countP (fun s1 => sections2.any (sectionMatches s1))
  let uniqueSize :=
    (uniqAux [] (sections1.map (fun s => lowerStr s.title) ++
      sections2.map (fun s => lowerStr s.title))).length
  (matchCount : ℚ) / (uniqueSize : ℚ)

/-- Source function `findSimilarPattern` reduced to its observable use in
`learnFromRepository`: whether some stored pattern exceeds the 0.7
threshold.  The stored side is the first argument, as in the source. -/
def patternSimilar (p : ReadmePattern) (newPattern : ReadmePattern) : Bool :=
  decide ((7 : ℚ)/10 < calculateSectionSimilarity p.sections newPattern.sections)

/-- Replace the first element satisfying `p` by its image under `f` (the
`find` + in-place mutation idiom of the source). -/
def updateFirstMatch (p : α → Bool) (f : α → α) : List α → List α
  | [] => []
  | x :: xs => if p x then f x :: xs else x :: updateFirstMatch p f xs

end Similarity

section Sorting

/-- Stable insertion: place `x` before the first element `y` for which
`le x y` holds.  With a total `le` this is the unique stable sort order, and
so models the ECMAScript (stable) `Array.prototype.sort`. -/
def insertBy (le : α → α → Bool) (x : α) : List α → List α
  | [] => [x]
  | y :: ys => if le x y then x :: y :: ys else y :: insertBy le x ys

/-- Stable insertion sort. -/
def sortBy (le : α → α → Bool) : List α → List α
  | [] => []
  | x :: xs => insertBy le x (sortBy le xs)

/-- Model of `patterns.sort((a, b) => b.frequency - a.frequency)`:
stable descending sort by frequency. -/
def sortByFreqDesc (l : List ReadmePattern) : List ReadmePattern :=
  sortBy (fun a b => b.frequency ≤ a.frequency) l

/-- Model of `sections.sort((a, b) => a.position - b.position)`:
stable ascending sort by position. -/
def sortByPosAsc (l : List SectionPattern) : List SectionPattern :=
  sortBy (fun a b => decide (a.position ≤ b.position)) l

end Sorting

section Merge

/-- Keyword merge of `mergeSections`: append each new keyword not already
present (deduplicated union, first-appearance order preserved). -/
def mergeKeywords (existing newKeywords : List Str) : List Str :=
  newKeywords.foldl (fun acc k => if k ∈ acc then acc else acc ++ [k]) existing

/-- Section update of `mergeSections` (source lines 343-356).  The source
increments `frequency` first and then reads the incremented value inside the
position formula, so with pre-update values f and p the new position is
(p * (f + 1) + newPosition) / (f + 2). -/
def updateMatchedSection (m newSection : SectionPattern) : SectionPattern :=
  let freq := m.frequency + 1
  { m with
      frequency := freq
      position := (m.position * (freq : ℚ) + newSection.position) / ((freq : ℚ) + 1)
      keywords := mergeKeywords m.keywords newSection.keywords }

/-- The title-similarity test used by `mergeSections` to find the section to
update (threshold 0.8, no position constraint). -/
def titleSimilar (s newSection : SectionPattern) : Bool :=
  decide ((8 : ℚ)/10 <
    calculateStringSimilarity (lowerStr s.title) (lowerStr newSection.title))

/-- One step of `mergeSections`: update the first title-similar existing
section, or append the new section unchanged. -/
def mergeOneSection (existingSections : List SectionPattern)
    (newSection : SectionPattern) : List SectionPattern :=
  if existingSections.any (fun s => titleSimilar s newSection) then
    updateFirstMatch (fun s => titleSimilar s newSection)
      (fun s => updateMatchedSection s newSection) existingSections
  else existingSections ++ [newSection]

/-- Source function `mergeSections`: fold every incoming section into the
existing list, then re-sort by position (in place in the source). -/
def mergeSections (existingSections newSections : List SectionPattern) :
    List SectionPattern :=
  sortByPosAsc (newSections.foldl mergeOneSection existingSections)

/-- The merge path of `learnFromRepository` on a stored pattern: increment
its frequency and merge the section lists. -/
def mergePattern (existing newPattern : ReadmePattern) : ReadmePattern :=
  { existing with
      frequency := existing.frequency + 1
      sections := mergeSections existing.sections newPattern.sections }

end Merge

section StoreOps

/-- The store-update core of `learnFromRepository` (source lines 155-201),
with the fetched README text as input: analyze the document, and either
merge into the first sufficiently similar stored pattern of the category or
append the new pattern.  An unanalyzable document leaves the store
untouched. -/
def learnDoc (store : Store) (category : Str) (md : Str) : Store :=
  match analyzeReadmeStructure md with
  | none => store
  | some pattern =>
      let patterns := lookupList store category
      if patterns.any (fun p => patternSimilar p pattern) then
        setStore store category
          (updateFirstMatch (fun p => patternSimilar p pattern)
            (fun p => mergePattern p pattern) patterns)
      else
        setStore store category (patterns ++ [pattern])

/-- Source function `categorizeRepository`, topic block: at most one of the
three topic suffixes, chosen by the if/else-if chain.  The guard requires the
`topics` field to be present and non-empty. -/
def topicSuffix (repo : Repository) : Str :=
  match repo.topics with
  | none => []
  | some topics =>
      if topics.length = 0 then []
      else if topics.any (fun t =>
          [str "react", str "vue", str "angular"].contains (lowerStr t)) then
        str "-frontend"
      else if topics.any (fun t =>
          [str "api", str "backend", str "server"].contains (lowerStr t)) then
        str "-backend"
      else if topics.any (fun t =>
          [str "ml", str "ai", str "machine-learning", str "data-science"].contains
            (lowerStr t)) then
        str "-ml"
      else []

/-- Source function `categorizeRepository`, name/description block: at most
one suffix from the lowercased concatenation of name and description. -/
def nameSuffix (repo : Repository) : Str :=
  let nameAndDesc := lowerStr (jsStr repo.name ++ str " " ++ (jsOr repo.description []))
  if containsSub nameAndDesc (str "awesome") || containsSub nameAndDesc (str "list") then
    str "-list"
  else if containsSub nameAndDesc (str "boilerplate") ||
      containsSub nameAndDesc (str "starter") ||
      containsSub nameAndDesc (str "template") then
    str "-template"
  else if containsSub nameAndDesc (str "docs") ||
      containsSub nameAndDesc (str "documentation") then
    str "-docs"
  else []

/-- Source function `categorizeRepository`: the language (as stored, with
`undefined` and the empty string falling back to "unknown") followed by the
two optional suffixes. -/
def categorizeRepository (repo : Repository) : Str :=
  jsOr repo.language (str "unknown") ++ topicSuffix repo ++ nameSuffix repo

/-- The category prefix before the first dash, as computed by
`category.split("-")[0]`. -/
def generalOf (category : Str) : Str := category.takeWhile (· ≠ '-')

/-- Source function `getBestPatternForRepository` after categorization: sort
the category list (or, for an absent key, the general-category list) in place
by descending frequency and take its head.  The returned store reflects the
in-place sort performed by `Array.prototype.sort`. -/
def bestPatternForCategory (store : Store) (category : Str) :
    Option ReadmePattern × Store :=
  match lookupStore store category with
  | none =>
      let general := generalOf category
      match lookupStore store general with
      | none => (none, store)
      | some qs =>
          let sorted := sortByFreqDesc qs
          (sorted.head?, setStore store general sorted)
  | some ps =>
      let sorted := sortByFreqDesc ps
      (sorted.head?, setStore store category sorted)

/-- Source function `getBestPatternForRepository`. -/
def getBestPatternForRepository (store : Store) (repo : Repository) :
    Option ReadmePattern × Store :=
  bestPatternForCategory store (categorizeRepository repo)

end StoreOps

section Synthesizer

/-- Source function `getInstallCommandForLanguage`. -/
def getInstallCommandForLanguage (language : Str) : Str :=
  let l := lowerStr language
  if l = str "javascript" ∨ l = str "typescript" then str "npm install"
  else if l = str "python" then str "pip install -r requirements.txt"
  else if l = str "ruby" then str "bundle install"
  else if l = str "go" then str "go mod download"
  else if l = str "rust" then str "cargo build"
  else if l = str "java" then str "mvn install"
  else if l = str "c#" then str "dotnet restore"
  else str "# Install dependencies according to your project requirements"

/-- Source function `getUsageCommandForLanguage`. -/
def getUsageCommandForLanguage (language : Str) : Str :=
  let l := lowerStr language
  if l = str "javascript" ∨ l = str "typescript" then str "npm start"
  else if l = str "python" then str "python main.py"
  else if l = str "ruby" then str "ruby app.rb"
  else if l = str "go" then str "go run main.go"
  else if l = str "rust" then str "cargo run"
  else if l = str "java" then str "java -jar target/app.jar"
  else if l = str "c#" then str "dotnet run"
  else str "# Run the application according to your project requirements"

/-- The generic license sentence emitted when no license metadata is
present. -/
def licenseFallbackSentence : Str :=
  str "This project is licensed under the terms of the license included in the repository."

/-- Source function `generateLicenseSection`: the license name when the
optional chain yields a truthy value, else the generic sentence. -/
def generateLicenseSection (repo : Repository) : Str :=
  match repo.license with
  | some l =>
      if l.name ≠ [] then
        str "This project is licensed under the " ++ l.name ++ str "."
      else licenseFallbackSentence
  | none => licenseFallbackSentence

/-- Source function `generateInstallationSection` (the `analysis` argument is
never read). -/
def generateInstallationSection (repo : Repository) : Str :=
  str "```bash\n# Clone the repository\ngit clone https://github.com/" ++
    jsStr repo.full_name ++ str ".git\ncd " ++ jsStr repo.name ++
    str "\n\n# Install dependencies\n" ++
    getInstallCommandForLanguage (jsOr repo.language []) ++ str "\n```"

/-- Source function `generateUsageSection`. -/
def generateUsageSection (repo : Repository) : Str :=
  str "```bash\n" ++ getUsageCommandForLanguage (jsOr repo.language []) ++
    str "\n```\n\nFor more detailed usage instructions, please refer to the documentation."

/-- Source function `generateFeaturesSection` (static placeholder). -/
def generateFeaturesSection : Str :=
  str "- Feature 1\n- Feature 2\n- Feature 3"

/-- Source function `generateApiSection`. -/
def generateApiSection (repo : Repository) : Str :=
  str "This section would contain API documentation.\n\n```javascript\n// Example API usage\nconst api = require(\x27" ++
    jsStr repo.name ++ str "\x27);\nconst result = api.doSomething();\n```"

/-- Source function `generateContributingSection` (static text). -/
def generateContributingSection : Str :=
  str "Contributions are welcome! Please feel free to submit a Pull Request.\n\n1. Fork the repository\n2. Create your feature branch (`git checkout -b feature/amazing-feature`)\n3. Commit your changes (`git commit -m \x27Add some amazing feature\x27`)\n4. Push to the branch (`git push origin feature/amazing-feature`)\n5. Open a Pull Request"

/-- Source function `generateAuthorsSection`: reads `repo.owner.login`
without an optional chain, so a missing owner raises a `TypeError` that the
synthesis path does not catch. -/
def generateAuthorsSection (repo : Repository) : Except Str Str :=
  match repo.owner with
  | none =>
      Except.error (str "TypeError: Cannot read properties of undefined (reading \x27login\x27)")
  | some o =>
      Except.ok (str "- **" ++ o.login ++ str "** - *Initial work* - [" ++ o.login ++
        str "](https://github.com/" ++ o.login ++
        str ")\n\nSee also the list of [contributors](https://github.com/" ++
        jsStr repo.full_name ++ str "/contributors) who participated in this project.")

/-- Source function `generateSectionContent`: ordered keyword dispatch on the
lowercased section title.  Only the authors branch can fail. -/
def generateSectionContent (sectionTitle : Str) (repo : Repository) : Except Str Str :=
  let title := lowerStr sectionTitle
  if title = str "introduction" ∨ title = [] then
    Except.ok (jsOr repo.description (str "A software project."))
  else if containsSub title (str "install") || containsSub title (str "getting started") ||
      containsSub title (str "setup") then
    Except.ok (generateInstallationSection repo)
  else if containsSub title (str "usage") || containsSub title (str "example") then
    Except.ok (generateUsageSection repo)
  else if containsSub title (str "feature") then
    Except.ok generateFeaturesSection
  else if containsSub title (str "api") || containsSub title (str "documentation") then
    Except.ok (generateApiSection repo)
  else if containsSub title (str "contribute") || containsSub title (str "contributing") then
    Except.ok generateContributingSection
  else if containsSub title (str "license") then
    Except.ok (generateLicenseSection repo)
  else if containsSub title (str "author") || containsSub title (str "credit") ||
      containsSub title (str "acknowledgement") then
    generateAuthorsSection repo
  else
    Except.ok (str "This section needs to be filled with relevant information.")

/-- Hexadecimal digit (uppercase) for percent-encoding. -/
def hexDigit (n : Nat) : Char :=
  if n < 10 then Char.ofNat (48 + n) else Char.ofNat (55 + n)

/-- UTF-8 bytes of one scalar value (what `encodeURIComponent` escapes). -/
def utf8Bytes (c : Char) : List Nat :=
  let n := c.toNat
  if n < 0x80 then [n]
  else if n < 0x800 then [0xC0 + n / 64, 0x80 + n % 64]
  else if n < 0x10000 then [0xE0 + n / 4096, 0x80 + n / 64 % 64, 0x80 + n % 64]
  else [0xF0 + n / 262144, 0x80 + n / 4096 % 64, 0x80 + n / 64 % 64, 0x80 + n % 64]

/-- Characters `encodeURIComponent` leaves unescaped. -/
def isUriUnreserved (c : Char) : Bool :=
  ('a' ≤ c && c ≤ 'z') || ('A' ≤ c && c ≤ 'Z') || ('0' ≤ c && c ≤ '9') ||
  c = '-' || c = '_' || c = '.' || c = '!' || c = '~' || c = '*' ||
  c = Char.ofNat 39 || c = '(' || c = ')'

/-- Model of `encodeURIComponent`. -/
def encodeURIComponent (s : Str) : Str :=
  s.foldr (fun c acc =>
    (if isUriUnreserved c then [c]
     else (utf8Bytes c).foldr (fun b a => '%' :: hexDigit (b / 16) :: hexDigit (b % 16) :: a) []) ++ acc) []

/-- Join with a separator, as `Array.prototype.join`. -/
def joinSep (sep : Str) : List Str → Str
  | [] => []
  | [x] => x
  | x :: y :: xs => x ++ sep ++ joinSep sep (y :: xs)

/-- Source function `generateBadges`: license and language badges when the
fields are truthy, and always a stars badge. -/
def generateBadges (repo : Repository) : Str :=
  let licenseBadge : List Str :=
    match repo.license with
    | some l =>
        if l.name ≠ [] then
          [str "![License](https://img.shields.io/badge/license-" ++
            encodeURIComponent l.name ++ str "-blue.svg)"]
        else []
    | none => []
  let languageBadge : List Str :=
    match repo.language with
    | some lang =>
        if lang ≠ [] then
          [str "![Language](https://img.shields.io/badge/language-" ++
            encodeURIComponent lang ++ str "-orange.svg)"]
        else []
    | none => []
  let starsBadge : List Str :=
    [str "![Stars](https://img.shields.io/github/stars/" ++ jsStr repo.full_name ++
      str "?style=social)"]
  joinSep (str " ") (licenseBadge ++ languageBadge ++ starsBadge)

/-- The anchored title-line regex of the badge insertion: the document must
start with hash, space, a non-empty run of non-newline characters, and a
blank line; the match is that whole prefix. -/
def matchTitleLine (r : Str) : Option (Str × Str) :=
  match r with
  | '#' :: ' ' :: rest =>
      let line := rest.takeWhile (· ≠ '\n')
      let after := rest.drop line.length
      if line ≠ [] ∧ after.take 2 = str "\n\n" then
        some (str "# " ++ line ++ str "\n\n", after.drop 2)
      else none
  | _ => none

/-- The `replace` call of `generateReadmeFromPattern`: insert the badges and
a blank line right after the matched title prefix, or leave the document
unchanged when the regex does not match. -/
def insertBadges (readme badges : Str) : Str :=
  match matchTitleLine readme with
  | some (pre, rest) => pre ++ badges ++ str "\n\n" ++ rest
  | none => readme

/-- The section loop of `generateReadmeFromPattern`: emit heading and
generated content for each stored section; a thrown `TypeError` aborts the
loop and propagates. -/
def renderSections (repo : Repository) :
    List SectionPattern → Str → Except Str Str
  | [], acc => Except.ok acc
  | s :: rest, acc =>
      match generateSectionContent s.title repo with
      | Except.error e => Except.error e
      | Except.ok content =>
          let heading := List.replicate s.level '#' ++
            (if 0 < s.level then [' '] else []) ++ s.title
          renderSections repo rest
            (acc ++ heading ++ str "\n\n" ++ content ++ str "\n\n")

/-- Source function `generateReadmeFromPattern`. -/
def generateReadmeFromPattern (repo : Repository) (pattern : ReadmePattern) :
    Except Str Str :=
  match renderSections repo pattern.sections [] with
  | Except.error e => Except.error e
  | Except.ok readme =>
      Except.ok (if pattern.style.usesShields then
        insertBadges readme (generateBadges repo) else readme)

/-- Source function `generateBasicReadme`: the hardcoded fallback skeleton.
It defaults `name`, `description` and `language`, renders a missing
`full_name` as the text "undefined" (template-literal semantics) and cannot
throw. -/
def generateBasicReadme (repo : Repository) : Str :=
  let repoName := jsOr repo.name (str "Repository")
  let repoDescription := jsOr repo.description (str "A software project")
  let repoLanguage := jsOr repo.language (str "Not specified")
  let licenseLine :=
    match repo.license with
    | some l => if l.name ≠ [] then l.name else licenseFallbackSentence
    | none => licenseFallbackSentence
  str "# " ++ repoName ++ str "\n\n" ++ repoDescription ++
    str "\n\n## Installation\n\n```bash\n# Clone the repository\ngit clone https://github.com/" ++
    jsStr repo.full_name ++ str ".git\ncd " ++ repoName ++
    str "\n\n# Install dependencies\n" ++ getInstallCommandForLanguage repoLanguage ++
    str "\n```\n\n## Usage\n\n```bash\n" ++ getUsageCommandForLanguage repoLanguage ++
    str "\n```\n\n## Features\n\n- Feature 1\n- Feature 2\n- Feature 3\n\n## License\n\n" ++
    licenseLine ++ str "\n"

/-- Source function `generateReadmeFromLearning`: query the store for the
best pattern of the repository category and synthesize from it, falling back
to the hardcoded skeleton when no pattern exists.  There is no try/catch on
this path, so a failure inside pattern-based synthesis propagates.  The
second component is the store as left behind by the in-place sort of the
query. -/
def generateReadmeFromLearning (store : Store) (repo : Repository) :
    Except Str Str × Store :=
  let res := getBestPatternForRepository store repo
  match res.1 with
  | none => (Except.ok (generateBasicReadme repo), res.2)
  | some pattern => (generateReadmeFromPattern repo pattern, res.2)

end Synthesizer

section CallerBoundary

/-- The analysis record consumed by the direct caller of the synthesis
operation (function `generateReadmeFromAnalysis` of repo-analysis.ts); only
the fields the wrapper reads when building its repository record and its
fallback document are modelled, each possibly absent at run time. -/
structure Analysis where
  name : Option Str
  description : Option Str
  language : Option Str
  topics : Option (List Str)
  license : Option Str
  owner : Option Str
  fullName : Option Str
deriving Repr, DecidableEq

/-- The minimal repository record the caller builds from an analysis record
(fields the learning module never reads are omitted, as in `Repository`).
The owner field is always present, with login defaulting to "owner". -/
def repoOfAnalysis (an : Analysis) : Repository :=
  { name := an.name
    full_name := some (jsOr an.fullName
      (jsOr an.owner (str "owner") ++ str "/" ++ jsStr an.name))
    description := an.description
    language := an.language
    topics := some (an.topics.getD [])
    license :=
      match an.license with
      | some l => if l ≠ [] then some ⟨l⟩ else none
      | none => none
    owner := some ⟨jsOr an.owner (str "owner")⟩ }

/-- The minimal error-notice document returned by the caller's catch block:
repository name, description and an explanatory Error section (the optional
chain renders the null-analysis case with both defaults). -/
def analysisErrorDoc (a : Option Analysis) : Str :=
  str "# " ++
    (match a with
     | none => str "Project"
     | some an => jsOr an.name (str "Project")) ++
    str "\n\n" ++
    (match a with
     | none => str "No description available."
     | some an => jsOr an.description (str "No description available.")) ++
    str "\n\n## Error\n\nThere was an error generating the complete README. Please check the repository details and try again.\n"

/-- Source function `generateReadmeFromAnalysis` (repo-analysis.ts), the
direct caller of `generateReadmeFromLearning`: a null analysis record throws
inside the try block, and any fault - including one thrown out of the
synthesis operation - is caught and converted into the minimal error-notice
document. -/
def generateReadmeFromAnalysis (store : Store) (a : Option Analysis) :
    Str × Store :=
  match a with
  | none => (analysisErrorDoc none, store)
  | some an =>
      let res := generateReadmeFromLearning store (repoOfAnalysis an)
      match res.1 with
      | Except.ok readme => (readme, res.2)
      | Except.error _ => (analysisErrorDoc (some an), res.2)

end CallerBoundary

section SpecSide

/-- Specification-side selector: the first stored pattern attaining the
maximum frequency (highest frequency, ties broken by store order).  This is
the specification wording of `bestPatternFor`, to be compared with the
sort-based source computation. -/
def maxFreqFirst : List ReadmePattern → Option ReadmePattern
  | [] => none
  | p :: ps =>
      match maxFreqFirst ps with
      | none => some p
      | some q => if p.frequency < q.frequency then some q else some p

/-- Ordered containment of several substrings: each one occurs after the end
of the previous occurrence (structural recursion on the pattern list). -/
def seqContains : List Str → Str → Bool
  | [], _ => true
  | p :: ps, hay =>
      match findSub hay p with
      | none => false
      | some i => seqContains ps (hay.drop (i + p.length))

/-- Extract a successful synthesis result (the error text for a failure,
which no confirmed statement relies on). -/
def getOk : Except Str Str → Str
  | Except.ok s => s
  | Except.error e => e

/-- Modelled from the spec wording of the style detector: the link targets of
the image tokens of a document, read as the text between the first "](" after
each "![" and the next closing parenthesis. -/
def imageTargets : Str → List Str
  | [] => []
  | '!' :: '[' :: rest =>
      (match findSub rest (str "](") with
       | some i => [(rest.drop (i + 2)).takeWhile (· ≠ ')')]
       | none => []) ++ imageTargets rest
  | _ :: rest => imageTargets rest

/-- Modelled from the spec wording of the style detector: a non-badge image
reference is an image token whose target does not point at shields.io. -/
def specNonBadgeImagePresent (s : Str) : Bool :=
  (imageTargets s).any (fun u => !containsSub u (str "shields.io"))

/-- A learn transcript: category key and fetched README text per step. -/
def runLearns (store : Store) (ops : List (Str × Str)) : Store :=
  ops.foldl (fun s op => learnDoc s op.1 op.2) store

/-- Store invariant: every present category holds a non-empty pattern list,
and every stored pattern has frequency at least 1 and a non-empty section
list. -/
def StoreOK (store : Store) : Prop :=
  ∀ e ∈ store, e.2 ≠ [] ∧ ∀ p ∈ e.2, 1 ≤ p.frequency ∧ p.sections ≠ []

instance : DecidablePred StoreOK := fun store =>
  inferInstanceAs (Decidable (∀ e ∈ store, _ ∧ _))

end SpecSide

section SortLemmas

theorem insertBy_perm (le : α → α → Bool) (x : α) (l : List α) :
    (insertBy le x l).Perm (x :: l) := by
  induction l with
  | nil => exact List.Perm.refl _
  | cons y ys ih =>
      simp only [insertBy]
      split
      · exact List.Perm.refl _
      · exact (List.Perm.cons y ih).trans (List.Perm.swap x y ys)

theorem sortBy_perm (le : α → α → Bool) (l : List α) : (sortBy le l).Perm l := by
  induction l with
  | nil => exact List.Perm.refl _
  | cons x xs ih => exact (insertBy_perm le x (sortBy le xs)).trans (ih.cons x)

theorem head_sortByFreqDesc (l : List ReadmePattern) :
    (sortByFreqDesc l).head? = maxFreqFirst l := by
  unfold sortByFreqDesc
  induction l with
  | nil => rfl
  | cons p ps ih =>
      simp only [sortBy]
      cases hs : sortBy (fun a b => decide (b.frequency ≤ a.frequency)) ps with
      | nil =>
          have hps : ps = [] := by
            have h := sortBy_perm (fun a b => decide (b.frequency ≤ a.frequency)) ps
            rw [hs] at h
            exact h.symm.eq_nil
          subst hps
          rfl
      | cons q rest =>
          have ih' : maxFreqFirst ps = some q := by rw [← ih, hs]; rfl
          simp only [maxFreqFirst, ih', insertBy]
          by_cases h : q.frequency ≤ p.frequency
          · rw [if_pos (by simpa using h), if_neg (by omega)]
            rfl
          · rw [if_neg (by simpa using h), if_pos (by omega)]
            rfl

theorem lookup_setStore (s : Store) (k : Str) (v : List ReadmePattern) (c : Str) :
    lookupStore (setStore s k v) c = if k = c then some v else lookupStore s c := by
  induction s with
  | nil => rfl
  | cons e rest ih =>
      obtain ⟨k', v'⟩ := e
      by_cases h1 : k' = k
      · subst h1
        by_cases h2 : k' = c <;> simp [setStore, lookupStore, h2]
      · have h1' : ¬ k = k' := fun h => h1 h.symm
        by_cases h2 : k' = c
        · subst h2
          simp [setStore, lookupStore, h1, h1']
        · simp [setStore, lookupStore, h1, h2, ih]

end SortLemmas

section ConcreteInputs

/-- The repository record of the categorization example shared by the spec
and claim C2. -/
def pyRepo : Repository :=
  { name := some (str "foo"), full_name := some (str "o/foo"),
    description := some (str "bar"), language := some (str "Python"),
    topics := some [str "machine-learning"], license := none,
    owner := some ⟨str "o"⟩ }

/-- Existing stored section for the merge example of claim C3. -/
def e0 : SectionPattern :=
  { title := str "a", level := 1, content := [], frequency := 1,
    position := 0, keywords := [] }

/-- Incoming section for the merge example of claim C3. -/
def n0 : SectionPattern :=
  { title := str "a", level := 1, content := [], frequency := 1,
    position := 1, keywords := [] }

/-- A section titled Authors, as stored in a learned pattern. -/
def authorsSec : SectionPattern :=
  { title := str "Authors", level := 2, content := [], frequency := 1,
    position := 0, keywords := [] }

/-- A section titled Usage, as stored in a learned pattern. -/
def usageSec : SectionPattern :=
  { title := str "Usage", level := 2, content := [], frequency := 1,
    position := 0, keywords := [] }

/-- A plain style fingerprint with every flag off. -/
def plainStyle : StylePattern :=
  { usesEmoji := false, usesShields := false, usesCodeBlocks := false,
    usesTables := false, usesImages := false, averageSectionLength := 0,
    headerStyle := str "hash" }

/-- A stored pattern with frequency 1 (store-order examples). -/
def pA : ReadmePattern :=
  { sections := [authorsSec], style := plainStyle, frequency := 1 }

/-- A stored pattern with frequency 2 (store-order examples). -/
def pB : ReadmePattern :=
  { sections := [usageSec], style := plainStyle, frequency := 2 }

/-- A store holding two patterns for category "Go" in ascending frequency
order, so that the in-place query sort visibly reorders it. -/
def storeGo : Store := [(str "Go", [pA, pB])]

/-- A Go repository whose metadata triggers no category suffix. -/
def repoGo : Repository :=
  { name := some (str "x"), full_name := some (str "o/x"), description := none,
    language := some (str "Go"), topics := none, license := none,
    owner := some ⟨str "o"⟩ }

/-- The repoGo record with the owner field unexpectedly absent (claim C1). -/
def repoNoOwner : Repository :=
  { name := some (str "x"), full_name := some (str "o/x"), description := none,
    language := some (str "Go"), topics := none, license := none, owner := none }

/-- A document containing one non-badge image and one shields.io badge image
(claim C8). -/
def doc8 : Str :=
  str "![logo](logo.png)\n![build](https://img.shields.io/badge/build-ok-green.svg)"

end ConcreteInputs

/-- Claim C2, counterexample: on the claim's own example record (language
"Python", topic "machine-learning") the categorizer returns "Python-ml" - the
language prefix is not lowercased, so the result differs from the claimed
"python-ml". -/
theorem categorize_example_not_lowercase :
    categorizeRepository pyRepo = str "Python-ml" ∧
      categorizeRepository pyRepo ≠ str "python-ml" := by
  constructor <;> decide

/-- Claim C2 (amended): the category key begins with the repository's primary
language as stored (not lowercased), or "unknown" when the language is absent
or empty; on the example record the result is "Python-ml". -/
theorem categorize_starts_with_language :
    (∀ repo : Repository, ∃ rest : Str,
        categorizeRepository repo = jsOr repo.language (str "unknown") ++ rest) ∧
      categorizeRepository pyRepo = str "Python-ml" := by
  constructor
  · intro repo
    exact ⟨topicSuffix repo ++ nameSuffix repo, (List.append_assoc _ _ _)⟩
  · decide

/-- Claim C3, evaluation at the failing input: merging a section at position
1 into a matching stored section with position 0 and frequency 1 yields
position 1/3, because the source increments the frequency before reading it
in the weighted-average formula; the claimed formula with the pre-merge
values gives 1/2. -/
theorem mergeSections_position_bug :
    (mergeSections [e0] [n0]).map (fun s => (s.frequency, s.position)) =
      [(2, (1 : ℚ)/3)] ∧
      (e0.position * (e0.frequency : ℚ) + n0.position) / ((e0.frequency : ℚ) + 1) =
        (1 : ℚ)/2 ∧
      ((1 : ℚ)/3 : ℚ) ≠ (1 : ℚ)/2 := by
  have hsim : titleSimilar e0 n0 = true := by
    simp only [titleSimilar, calculateStringSimilarity, e0, n0, lowerStr, str,
      List.map, List.length, levDist]
    norm_num
  refine ⟨?_, by norm_num [e0, n0], by norm_num⟩
  simp only [mergeSections, List.foldl, mergeOneSection, List.any, hsim, Bool.or_false,
    if_pos rfl, updateFirstMatch, updateMatchedSection, mergeKeywords, sortByPosAsc,
    sortBy, insertBy, List.map]
  simp [e0, n0]
  norm_num

/-- Claim C4, counterexample: querying the best pattern for a Go repository
re-sorts the stored "Go" list in place (frequencies [1, 2] become [2, 1]), so
the query does not leave the store exactly unchanged. -/
theorem query_mutates_store :
    (getBestPatternForRepository storeGo repoGo).2 ≠ storeGo ∧
      (getBestPatternForRepository storeGo repoGo).2 = [(str "Go", [pB, pA])] := by
  constructor <;> decide

/-- Claim C4 (amended): the query operation getBestPatternForRepository
mutates the store only by stably re-sorting the queried category's list in
descending frequency order: for every category, the pattern list after a
query is a permutation of the list before it (same patterns, fields
untouched; only the order within the sorted category changes). -/
theorem query_preserves_multisets (store : Store) (repo : Repository) (c : Str) :
    (lookupList ((getBestPatternForRepository store repo).2) c).Perm
      (lookupList store c) := by
  unfold getBestPatternForRepository bestPatternForCategory
  cases h1 : lookupStore store (categorizeRepository repo) with
  | some ps =>
      simp only [h1, lookupList, lookup_setStore]
      by_cases h2 : categorizeRepository repo = c
      · rw [if_pos h2, ← h2, h1]
        exact sortBy_perm _ ps
      · rw [if_neg h2]
  | none =>
      simp only [h1]
      cases h2 : lookupStore store (generalOf (categorizeRepository repo)) with
      | none =>
          simp only [h2]
          exact List.Perm.refl _
      | some qs =>
          simp only [h2, lookupList, lookup_setStore]
          by_cases h3 : generalOf (categorizeRepository repo) = c
          · rw [if_pos h3, ← h3, h2]
            exact sortBy_perm _ qs
          · rw [if_neg h3]

/-- Claim C8, counterexample: a document with both a non-badge image
reference and a shields.io badge image contains the image token, yet the
style detector reports usesImages = false, because any occurrence of the
substring shields.io suppresses the flag. -/
theorem usesImages_false_with_nonbadge_image :
    containsSub doc8 (str "![") = true ∧
      specNonBadgeImagePresent doc8 = true ∧
      (analyzeReadmeStructure doc8).map (fun p => p.style.usesImages) = some false := by
  refine ⟨by decide, by decide, by decide⟩

/-- Claim C6: on a category with stored patterns the query returns the
highest-frequency pattern, ties broken by store order (first encountered);
on an absent category it falls back to the prefix before the first dash and
applies the same rule there, returning none when that is also absent; the
empty store yields none, and after one learn for category "go" the query
returns the learned pattern. -/
theorem bestPattern_spec (store : Store) (cat : Str) :
    (∀ ps, lookupStore store cat = some ps → ps ≠ [] →
        (bestPatternForCategory store cat).1 = maxFreqFirst ps) ∧
      (lookupStore store cat = none →
        (∀ qs, lookupStore store (generalOf cat) = some qs → qs ≠ [] →
            (bestPatternForCategory store cat).1 = maxFreqFirst qs) ∧
          (lookupStore store (generalOf cat) = none →
            (bestPatternForCategory store cat).1 = none)) ∧
      (bestPatternForCategory ([] : Store) cat).1 = none ∧
      (∀ md p, analyzeReadmeStructure md = some p →
        (bestPatternForCategory (learnDoc [] (str "go") md) (str "go")).1 = some p) := by
  refine ⟨?_, ?_, ?_, ?_⟩
  · intro ps h _
    simp only [bestPatternForCategory, h]
    exact head_sortByFreqDesc ps
  · intro h
    constructor
    · intro qs h2 _
      simp only [bestPatternForCategory, h, h2]
      exact head_sortByFreqDesc qs
    · intro h2
      simp [bestPatternForCategory, h, h2]
  · rfl
  · intro md p h
    simp [learnDoc, h, lookupList, lookupStore, setStore, bestPatternForCategory,
      sortByFreqDesc, sortBy, insertBy]

/-- Claim C6, witness: on a store holding patterns of frequencies [1, 2] for
category "Go", the query returns the frequency-2 pattern. -/
theorem bestPattern_spec_witness :
    (bestPatternForCategory storeGo (str "Go")).1 = some pB := by
  have h := (bestPattern_spec storeGo (str "Go")).1 [pA, pB] (by decide) (by decide)
  rw [h]
  decide

/-- Whether a synthesis result is a success (the source has no value-level
error type: a thrown TypeError is the error case). -/
def exceptOk : Except Str Str → Bool
  | Except.ok _ => true
  | Except.error _ => false

theorem generateSectionContent_isOk (repo : Repository)
    (h : repo.owner.isSome = true) (t : Str) :
    exceptOk (generateSectionContent t repo) = true := by
  obtain ⟨o, ho⟩ := Option.isSome_iff_exists.mp h
  simp only [generateSectionContent, generateAuthorsSection, ho]
  split_ifs <;> rfl

theorem renderSections_isOk (repo : Repository) (h : repo.owner.isSome = true)
    (sections : List SectionPattern) :
    ∀ acc : Str, exceptOk (renderSections repo sections acc) = true := by
  induction sections with
  | nil => intro acc; rfl
  | cons s rest ih =>
      intro acc
      have hc := generateSectionContent_isOk repo h s.title
      cases hgc : generateSectionContent s.title repo with
      | error e => rw [hgc] at hc; simp [exceptOk] at hc
      | ok content =>
          simp only [renderSections, hgc]
          exact ih _

theorem synthesis_no_throw (store : Store) (repo : Repository)
    (h : repo.owner.isSome = true) :
    exceptOk (generateReadmeFromLearning store repo).1 = true := by
  unfold generateReadmeFromLearning
  cases hb : (getBestPatternForRepository store repo).1 with
  | none =>
      simp only [hb]
      rfl
  | some pattern =>
      simp only [hb]
      unfold generateReadmeFromPattern
      cases hr : renderSections repo pattern.sections [] with
      | error e =>
          have hok := renderSections_isOk repo h pattern.sections []
          rw [hr] at hok
          simp [exceptOk] at hok
      | ok readme =>
          simp only [hr]
          rfl

/-- Claim C1 (amended): internal faults are not caught inside the synthesis
operation itself - generateReadmeFromLearning and the generators it
dispatches to contain no try/catch, and the unguarded owner.login access is
the only fault source there, so synthesis never throws when the owner field
is present.  The catch-and-convert behavior claimed for the synthesis
boundary lives one level up, in the direct caller generateReadmeFromAnalysis:
the repository record it builds always carries an owner (login defaulting to
"owner"), so synthesis through the caller never throws, and its catch block
converts a fault inside the try block - such as a null analysis record - into
the minimal name, description and Error-notice document. -/
theorem synthesis_ok_of_owner (store : Store) (repo : Repository)
    (h : repo.owner.isSome = true) :
    exceptOk (generateReadmeFromLearning store repo).1 = true ∧
      (∀ an : Analysis,
        exceptOk (generateReadmeFromLearning store (repoOfAnalysis an)).1 = true) ∧
      (∀ s : Store, (generateReadmeFromAnalysis s none).1 = analysisErrorDoc none) := by
  refine ⟨synthesis_no_throw store repo h, ?_, fun s => rfl⟩
  intro an
  exact synthesis_no_throw store (repoOfAnalysis an) rfl

/-- Claim C1, counterexample: with a learned pattern containing an authors
section and a repository record lacking the owner field, the synthesis
operation propagates the TypeError to its caller instead of returning a
minimal document - the claimed catch at the synthesis boundary does not
exist there (the catch lives in generateReadmeFromAnalysis instead). -/
theorem synthesis_throws_without_owner :
    exceptOk (generateReadmeFromLearning [(str "Go", [pA])] repoNoOwner).1 = false := by
  decide

/-- Claim C1, witness for the amended theorem: a concrete repository with an
owner present synthesizes successfully, and the caller converts the
null-analysis fault into the error-notice document. -/
theorem synthesis_ok_of_owner_witness :
    repoGo.owner.isSome = true ∧
      exceptOk (generateReadmeFromLearning [] repoGo).1 = true ∧
      (generateReadmeFromAnalysis [] none).1 = analysisErrorDoc none :=
  ⟨by decide, (synthesis_ok_of_owner [] repoGo (by decide)).1,
    (synthesis_ok_of_owner [] repoGo (by decide)).2.2 []⟩

theorem trimChars_eq_nil_iff (l : Str) : trimChars l = [] ↔ ∀ c ∈ l, jsWs c = true := by
  unfold trimChars
  constructor
  · intro h c hc
    rw [List.reverse_eq_nil_iff] at h
    have h2 := List.dropWhile_eq_nil_iff.mp h
    have h3 : ∀ x ∈ l.dropWhile jsWs, jsWs x := fun x hx =>
      h2 x (List.mem_reverse.mpr hx)
    have h4 := List.takeWhile_append_dropWhile (p := jsWs) (l := l)
    rw [← h4] at hc
    rcases List.mem_append.mp hc with h5 | h5
    · exact List.mem_takeWhile_imp h5
    · exact h3 c h5
  · intro h
    have hd : l.dropWhile jsWs = [] := List.dropWhile_eq_nil_iff.mpr (fun x hx => h x hx)
    rw [hd]
    rfl

theorem splitLines_ne_nil (s : Str) : splitLines s ≠ [] := by
  cases s with
  | nil => simp [splitLines]
  | cons c rest =>
      simp only [splitLines]
      split_ifs
      · simp
      · cases h : splitLines rest <;> simp

theorem mem_of_mem_splitLines {c : Char} {l s : Str}
    (hl : l ∈ splitLines s) (hc : c ∈ l) : c ∈ s := by
  induction s generalizing l with
  | nil =>
      simp only [splitLines, List.mem_singleton] at hl
      subst hl
      simp at hc
  | cons a rest ih =>
      simp only [splitLines] at hl
      by_cases ha : a = '\n'
      · rw [if_pos ha] at hl
        rcases List.mem_cons.mp hl with h | h
        · subst h; simp at hc
        · exact List.mem_cons_of_mem a (ih h hc)
      · rw [if_neg ha] at hl
        cases hsp : splitLines rest with
        | nil => exact absurd hsp (splitLines_ne_nil rest)
        | cons t ts =>
            rw [hsp] at hl
            rcases List.mem_cons.mp hl with h | h
            · subst h
              rcases List.mem_cons.mp hc with h2 | h2
              · subst h2; exact List.mem_cons_self _ _
              · exact List.mem_cons_of_mem a
                  (ih (by rw [hsp]; exact List.mem_cons_self t ts) h2)
            · exact List.mem_cons_of_mem a
                (ih (by rw [hsp]; exact List.mem_cons_of_mem t h) hc)

theorem parseHeading_of_ws {line : Str} (h : ∀ c ∈ line, jsWs c = true) :
    parseHeading line = none := by
  unfold parseHeading
  have htk : line.takeWhile (fun c => decide (c = '#')) = [] := by
    cases hl : line with
    | nil => rfl
    | cons a rest =>
        have ha := h a (hl ▸ List.mem_cons_self a rest)
        have hne : ¬ (a = '#') := by
          intro heq
          subst heq
          simp [jsWs] at ha
        simp [List.takeWhile, hne]
  rw [htk]
  simp

theorem parseLoop_ws (lines : List Str)
    (h : ∀ l ∈ lines, ∀ c ∈ l, jsWs c = true) :
    parseLoop lines none [] [] = [] := by
  induction lines with
  | nil => rfl
  | cons line rest ih =>
      have h1 := h line (List.mem_cons_self _ _)
      have hph : parseHeading line = none := parseHeading_of_ws h1
      have htr : trimChars line = [] := (trimChars_eq_nil_iff line).mpr h1
      simp only [parseLoop, hph, htr]
      rw [if_neg (by simp)]
      exact ih (fun l hl => h l (List.mem_cons_of_mem _ hl))

theorem parseSections_ws (md : Str) (h : trimChars md = []) :
    parseSections md = [] := by
  unfold parseSections
  apply parseLoop_ws
  intro l hl c hc
  exact (trimChars_eq_nil_iff md).mp h c (mem_of_mem_splitLines hl hc)

/-- Claim C9: the structural parse of an empty or whitespace-only document
returns the empty section list (no structure, no exception); in particular
parsing the empty string yields the empty sequence. -/
theorem parse_empty_or_ws :
    parseSections (str "") = [] ∧
      ∀ md : Str, trimChars md = [] → parseSections md = [] :=
  ⟨rfl, parseSections_ws⟩

/-- Claim C9, witness: a concrete whitespace-only document parses to the
empty section list. -/
theorem parse_empty_or_ws_witness :
    trimChars (str " \n\t ") = [] ∧ parseSections (str " \n\t ") = [] :=
  ⟨by decide, parse_empty_or_ws.2 _ (by decide)⟩

/-- Claim C8 (amended): the style detector sets usesImages to true exactly
when the text contains the image token and does not contain the substring
shields.io anywhere - a single shields.io occurrence forces usesImages to
false even when non-badge image references are present. -/
theorem usesImages_iff (readme : Str) (sections : List SectionPattern) :
    (analyzeStyle readme sections).usesImages = true ↔
      (containsSub readme (str "![") = true ∧
        containsSub readme (str "shields.io") = false) := by
  simp [analyzeStyle]

section SimilarityLemmas

theorem levDist_self (t : Str) : levDist t t = 0 := by
  induction t with
  | nil => simp [levDist]
  | cons x xs ih => simp [levDist, ih]

theorem calculateStringSimilarity_self (t : Str) (h : t ≠ []) :
    calculateStringSimilarity t t = 1 := by
  unfold calculateStringSimilarity
  rw [if_neg, levDist_self]
  · simp
  · simp [List.length_eq_zero, h]

theorem sectionMatches_self (s : SectionPattern) (h : s.title ≠ []) :
    sectionMatches s s = true := by
  have h1 : lowerStr s.title ≠ [] := by
    simp only [lowerStr, ne_eq, List.map_eq_nil_iff]
    exact h
  unfold sectionMatches
  rw [calculateStringSimilarity_self _ h1]
  simp only [Bool.and_eq_true, decide_eq_true_eq, sub_self, abs_zero]
  refine ⟨by norm_num, by norm_num⟩

theorem uniqAux_append (seen : List Str) (a b : List Str) :
    uniqAux seen (a ++ b) = uniqAux (uniqAux seen a) b := by
  induction a generalizing seen with
  | nil => rfl
  | cons x xs ih =>
      simp only [List.cons_append, uniqAux]
      exact ih _

theorem mem_uniqAux_of_seen {y : Str} (seen xs : List Str) (h : y ∈ seen) :
    y ∈ uniqAux seen xs := by
  induction xs generalizing seen with
  | nil => exact h
  | cons x rest ih =>
      simp only [uniqAux]
      apply ih
      split_ifs with hx
      · exact h
      · exact List.mem_append_left _ h

theorem mem_uniqAux_of_mem {y : Str} (seen xs : List Str) (h : y ∈ xs) :
    y ∈ uniqAux seen xs := by
  induction xs generalizing seen with
  | nil => simp at h
  | cons x rest ih =>
      rcases List.mem_cons.mp h with h1 | h1
      · subst h1
        simp only [uniqAux]
        apply mem_uniqAux_of_seen
        split_ifs with hx
        · exact hx
        · exact List.mem_append_right _ (List.mem_singleton.mpr rfl)
      · simp only [uniqAux]
        exact ih _ h1

theorem uniqAux_of_subset (seen xs : List Str) (h : ∀ x ∈ xs, x ∈ seen) :
    uniqAux seen xs = seen := by
  induction xs with
  | nil => rfl
  | cons x rest ih =>
      simp only [uniqAux, if_pos (h x (List.mem_cons_self _ _))]
      exact ih (fun y hy => h y (List.mem_cons_of_mem _ hy))

theorem length_uniqAux_le (xs : List Str) :
    ∀ seen : List Str, (uniqAux seen xs).length ≤ seen.length + xs.length := by
  induction xs with
  | nil => intro seen; simp [uniqAux]
  | cons x rest ih =>
      intro seen
      simp only [uniqAux, List.length_cons]
      refine le_trans (ih _) ?_
      split_ifs
      · omega
      · simp only [List.length_append, List.length_singleton]
        omega

theorem uniqAux_ne_nil (seen xs : List Str) (h : xs ≠ []) :
    uniqAux seen xs ≠ [] := by
  cases xs with
  | nil => exact absurd rfl h
  | cons x rest =>
      intro hcontra
      have hx : x ∈ uniqAux seen (x :: rest) :=
        mem_uniqAux_of_mem _ _ (List.mem_cons_self _ _)
      rw [hcontra] at hx
      simp at hx

theorem sectionSimilarity_self (ss : List SectionPattern) (hne : ss ≠ [])
    (ht : ∀ s ∈ ss, s.title ≠ []) :
    (7 : ℚ)/10 < calculateSectionSimilarity ss ss := by
  have hcount : (ss.countP (fun s1 => ss.any (sectionMatches s1))) = ss.length := by
    apply List.countP_eq_length.mpr
    intro s hs
    simp only [List.any_eq_true]
    exact ⟨s, hs, sectionMatches_self s (ht s hs)⟩
  have hm : ss.map (fun s => lowerStr s.title) ≠ [] := by
    simp only [ne_eq, List.map_eq_nil_iff]
    exact hne
  have huniq : uniqAux [] (ss.map (fun s => lowerStr s.title) ++
      ss.map (fun s => lowerStr s.title)) =
      uniqAux [] (ss.map (fun s => lowerStr s.title)) := by
    rw [uniqAux_append]
    exact uniqAux_of_subset _ _ (fun x hx => mem_uniqAux_of_mem _ _ hx)
  have hle : (uniqAux [] (ss.map (fun s => lowerStr s.title))).length ≤ ss.length := by
    refine le_trans (length_uniqAux_le _ []) ?_
    simp
  have hpos : 1 ≤ (uniqAux [] (ss.map (fun s => lowerStr s.title))).length := by
    have := uniqAux_ne_nil [] _ hm
    cases hu : uniqAux [] (ss.map (fun s => lowerStr s.title)) with
    | nil => exact absurd hu this
    | cons a b => simp
  unfold calculateSectionSimilarity
  rw [hcount, huniq]
  set u := (uniqAux [] (ss.map (fun s => lowerStr s.title))).length with hu
  have hle' : (u : ℚ) ≤ (ss.length : ℚ) := by exact_mod_cast hle
  have hpos' : (1 : ℚ) ≤ (u : ℚ) := by exact_mod_cast hpos
  rw [lt_div_iff₀ (by linarith)]
  nlinarith

end SimilarityLemmas

section ParserLemmas

theorem parseHeading_title_ne_nil {line : Str} {lvl : Nat} {t : Str}
    (h : parseHeading line = some (lvl, t)) : t ≠ [] := by
  simp only [parseHeading] at h
  set hlen := (List.takeWhile (fun x => decide (x = '#')) line).length with hhlen
  set rest := List.drop hlen line with hrest
  set w := (List.takeWhile jsWs rest).length with hwdef
  have hwle : w ≤ rest.length := by
    rw [hwdef]
    exact (List.takeWhile_sublist _).length_le
  split_ifs at h with h1 h2 h3 h4
  · rw [Option.some.injEq, Prod.mk.injEq] at h
    obtain ⟨-, ht⟩ := h
    subst ht
    intro hnil
    rw [List.drop_eq_nil_iff] at hnil
    omega
  · rw [Option.some.injEq, Prod.mk.injEq] at h
    obtain ⟨-, ht⟩ := h
    subst ht
    intro hnil
    rw [List.drop_eq_nil_iff] at hnil
    omega

theorem parseLoop_titles (lines : List Str) :
    ∀ (cur : Option SectionPattern) (cc : List Str) (secs : List SectionPattern),
    (∀ s ∈ secs, s.title ≠ []) →
    (∀ cs, cur = some cs → cs.title ≠ []) →
    ∀ s ∈ parseLoop lines cur cc secs, s.title ≠ [] := by
  induction lines with
  | nil =>
      intro cur cc secs hsecs hcur s hs
      cases cur with
      | none => exact hsecs s hs
      | some cs =>
          simp only [parseLoop] at hs
          rcases List.mem_append.mp hs with h | h
          · exact hsecs s h
          · rw [List.mem_singleton] at h
            subst h
            exact hcur cs rfl
  | cons line rest ih =>
      intro cur cc secs hsecs hcur
      cases hph : parseHeading line with
      | some lt =>
          obtain ⟨lvl, t⟩ := lt
          simp only [parseLoop, hph]
          cases cur with
          | none =>
              apply ih _ _ _ hsecs
              intro cs hcs
              obtain rfl := Option.some.inj hcs
              exact parseHeading_title_ne_nil hph
          | some c0 =>
              apply ih
              · intro s hs
                rcases List.mem_append.mp hs with h | h
                · exact hsecs s h
                · rw [List.mem_singleton] at h
                  subst h
                  exact hcur c0 rfl
              · intro cs hcs
                obtain rfl := Option.some.inj hcs
                exact parseHeading_title_ne_nil hph
      | none =>
          simp only [parseLoop, hph]
          cases cur with
          | some c0 => exact ih _ _ _ hsecs hcur
          | none =>
              split_ifs with htr
              · apply ih _ _ _ hsecs
                intro cs hcs
                obtain rfl := Option.some.inj hcs
                decide
              · exact ih _ _ _ hsecs hcur

theorem parseSections_titles (md : Str) :
    ∀ s ∈ parseSections md, s.title ≠ [] := by
  apply parseLoop_titles
  · intro s hs
    simp at hs
  · intro cs hcs
    exact absurd hcs (by simp)

theorem char_mem_splitLines {c : Char} {s : Str} (hc : c ∈ s) :
    c = '\n' ∨ ∃ l ∈ splitLines s, c ∈ l := by
  induction s with
  | nil => simp at hc
  | cons a rest ih =>
      rcases List.mem_cons.mp hc with h | h
      · subst h
        by_cases ha : c = '\n'
        · exact Or.inl ha
        · right
          simp only [splitLines, if_neg ha]
          cases hsp : splitLines rest with
          | nil => exact absurd hsp (splitLines_ne_nil rest)
          | cons t ts =>
              exact ⟨c :: t, List.mem_cons_self _ _, List.mem_cons_self _ _⟩
      · rcases ih h with h2 | h2
        · exact Or.inl h2
        · right
          obtain ⟨l, hl, hcl⟩ := h2
          simp only [splitLines]
          by_cases ha : a = '\n'
          · rw [if_pos ha]
            exact ⟨l, List.mem_cons_of_mem _ hl, hcl⟩
          · rw [if_neg ha]
            cases hsp : splitLines rest with
            | nil => exact absurd hsp (splitLines_ne_nil rest)
            | cons t ts =>
                rw [hsp] at hl
                rcases List.mem_cons.mp hl with h3 | h3
                · subst h3
                  exact ⟨a :: l, List.mem_cons_self _ _, List.mem_cons_of_mem a hcl⟩
                · exact ⟨l, List.mem_cons_of_mem _ h3, hcl⟩

theorem parseLoop_ne_nil (lines : List Str) :
    ∀ (cur : Option SectionPattern) (cc : List Str) (secs : List SectionPattern),
    (cur ≠ none ∨ secs ≠ [] ∨ ∃ l ∈ lines, trimChars l ≠ []) →
    parseLoop lines cur cc secs ≠ [] := by
  induction lines with
  | nil =>
      intro cur cc secs h
      cases cur with
      | some cs => simp [parseLoop]
      | none =>
          rcases h with h | h | h
          · exact absurd rfl h
          · simpa [parseLoop] using h
          · obtain ⟨l, hl, -⟩ := h
            simp at hl
  | cons line rest ih =>
      intro cur cc secs h
      cases hph : parseHeading line with
      | some lt =>
          obtain ⟨lvl, t⟩ := lt
          simp only [parseLoop, hph]
          cases cur <;> exact ih _ _ _ (Or.inl (by simp))
      | none =>
          simp only [parseLoop, hph]
          cases cur with
          | some c0 => exact ih _ _ _ (Or.inl (by simp))
          | none =>
              split_ifs with htr
              · exact ih _ _ _ (Or.inl (by simp))
              · apply ih
                rcases h with h | h | h
                · exact absurd rfl h
                · exact Or.inr (Or.inl h)
                · obtain ⟨l, hl, hlt⟩ := h
                  rcases List.mem_cons.mp hl with h1 | h1
                  · subst h1
                    exact absurd hlt htr
                  · exact Or.inr (Or.inr ⟨l, h1, hlt⟩)

theorem parseSections_ne_nil (md : Str) (h : trimChars md ≠ []) :
    parseSections md ≠ [] := by
  apply parseLoop_ne_nil
  right; right
  by_contra hall
  push_neg at hall
  apply h
  rw [trimChars_eq_nil_iff]
  intro c hc
  rcases char_mem_splitLines hc with h1 | h1
  · subst h1
    decide
  · obtain ⟨l, hl, hcl⟩ := h1
    exact (trimChars_eq_nil_iff l).mp (hall l hl) c hcl

end ParserLemmas

/-- Claim C5: learning the same non-whitespace document twice under one
category, starting from any store state in which that category has no stored
patterns (key absent or bound to the empty list), leaves that category with
exactly one stored pattern, whose frequency is 2 - the second learn merges
into the first pattern instead of appending a second one. -/
theorem learn_twice_single_pattern (store : Store) (cat md : Str)
    (hempty : lookupList store cat = []) (h : trimChars md ≠ []) :
    ∃ p, lookupStore (learnDoc (learnDoc store cat md) cat md) cat = some [p] ∧
      p.frequency = 2 := by
  have hana : analyzeReadmeStructure md =
      some { sections := parseSections md,
             style := analyzeStyle md (parseSections md), frequency := 1 } := by
    unfold analyzeReadmeStructure
    rw [if_neg h]
  set P : ReadmePattern :=
    { sections := parseSections md,
      style := analyzeStyle md (parseSections md), frequency := 1 } with hP
  have h1 : learnDoc store cat md = setStore store cat [P] := by
    unfold learnDoc
    rw [hana]
    simp [hempty]
  have h2 : lookupList (setStore store cat [P]) cat = [P] := by
    simp [lookupList, lookup_setStore]
  have hsim : patternSimilar P P = true := by
    unfold patternSimilar
    simp only [decide_eq_true_eq]
    exact sectionSimilarity_self _ (parseSections_ne_nil md h) (parseSections_titles md)
  refine ⟨mergePattern P P, ?_, rfl⟩
  rw [h1]
  unfold learnDoc
  rw [hana]
  simp [h2, updateFirstMatch, hsim, lookup_setStore]

/-- Claim C5, witness: learning a concrete two-section document twice for
category "go", starting from a store that already holds a pattern for
another category, yields a single stored "go" pattern of frequency 2. -/
theorem learn_twice_single_pattern_witness :
    ∃ p, lookupStore
        (learnDoc (learnDoc [(str "rust", [pB])] (str "go") (str "# A\nhello\n# B\nrun"))
          (str "go") (str "# A\nhello\n# B\nrun")) (str "go") = some [p] ∧
      p.frequency = 2 :=
  learn_twice_single_pattern [(str "rust", [pB])] _ _ (by decide) (by decide)

section InvariantLemmas

theorem lookupStore_mem {store : Store} {c : Str} {v : List ReadmePattern}
    (h : lookupStore store c = some v) : (c, v) ∈ store := by
  induction store with
  | nil => simp [lookupStore] at h
  | cons e rest ih =>
      obtain ⟨k, v'⟩ := e
      simp only [lookupStore] at h
      split_ifs at h with hk
      · obtain rfl := Option.some.inj h
        subst hk
        exact List.mem_cons_self _ _
      · exact List.mem_cons_of_mem _ (ih h)

theorem setStore_ok : ∀ (store : Store) (k : Str) (v : List ReadmePattern),
    StoreOK store → (v ≠ [] ∧ ∀ p ∈ v, 1 ≤ p.frequency ∧ p.sections ≠ []) →
    StoreOK (setStore store k v) := by
  intro store
  induction store with
  | nil =>
      intro k v _ hv e he
      simp only [setStore, List.mem_singleton] at he
      subst he
      exact hv
  | cons e0 rest ih =>
      obtain ⟨k', v'⟩ := e0
      intro k v hs hv e he
      simp only [setStore] at he
      split_ifs at he with hk
      · rcases List.mem_cons.mp he with h | h
        · subst h
          exact hv
        · exact hs _ (List.mem_cons_of_mem _ h)
      · rcases List.mem_cons.mp he with h | h
        · subst h
          exact hs _ (List.mem_cons_self _ _)
        · exact ih k v (fun e' he' => hs e' (List.mem_cons_of_mem _ he')) hv e h

theorem updateFirstMatch_length (p : α → Bool) (f : α → α) (l : List α) :
    (updateFirstMatch p f l).length = l.length := by
  induction l with
  | nil => rfl
  | cons x xs ih =>
      simp only [updateFirstMatch]
      split_ifs <;> simp [ih]

theorem mem_updateFirstMatch {p : α → Bool} {f : α → α} {l : List α} {x : α}
    (h : x ∈ updateFirstMatch p f l) : x ∈ l ∨ ∃ y ∈ l, x = f y := by
  induction l with
  | nil => simp [updateFirstMatch] at h
  | cons a rest ih =>
      simp only [updateFirstMatch] at h
      split_ifs at h with ha
      · rcases List.mem_cons.mp h with h1 | h1
        · exact Or.inr ⟨a, List.mem_cons_self _ _, h1⟩
        · exact Or.inl (List.mem_cons_of_mem _ h1)
      · rcases List.mem_cons.mp h with h1 | h1
        · exact Or.inl (h1 ▸ List.mem_cons_self _ _)
        · rcases ih h1 with h2 | ⟨y, hy, hxy⟩
          · exact Or.inl (List.mem_cons_of_mem _ h2)
          · exact Or.inr ⟨y, List.mem_cons_of_mem _ hy, hxy⟩

theorem mergeOneSection_ne_nil (l : List SectionPattern) (s : SectionPattern)
    (h : l ≠ []) : mergeOneSection l s ≠ [] := by
  unfold mergeOneSection
  split_ifs
  · intro hc
    apply h
    have hlen := updateFirstMatch_length (fun s' => titleSimilar s' s)
      (fun s' => updateMatchedSection s' s) l
    rw [hc] at hlen
    exact List.length_eq_zero.mp hlen.symm
  · simp

theorem foldl_mergeOneSection_ne_nil (newSecs : List SectionPattern) :
    ∀ l : List SectionPattern, l ≠ [] → newSecs.foldl mergeOneSection l ≠ [] := by
  induction newSecs with
  | nil => intro l h; exact h
  | cons s rest ih =>
      intro l h
      simp only [List.foldl]
      exact ih _ (mergeOneSection_ne_nil l s h)

theorem sortByPosAsc_ne_nil (l : List SectionPattern) (h : l ≠ []) :
    sortByPosAsc l ≠ [] := by
  intro hc
  unfold sortByPosAsc at hc
  have hp := sortBy_perm (fun a b => decide (a.position ≤ b.position)) l
  rw [hc] at hp
  exact h hp.symm.eq_nil

theorem mergeSections_ne_nil (ex newSecs : List SectionPattern) (h : ex ≠ []) :
    mergeSections ex newSecs ≠ [] :=
  sortByPosAsc_ne_nil _ (foldl_mergeOneSection_ne_nil newSecs ex h)

theorem learnDoc_ok (store : Store) (cat md : Str) (hs : StoreOK store) :
    StoreOK (learnDoc store cat md) := by
  cases hana : analyzeReadmeStructure md with
  | none =>
      simp only [learnDoc, hana]
      exact hs
  | some pattern =>
      have hpat : pattern.frequency = 1 ∧ pattern.sections ≠ [] := by
        unfold analyzeReadmeStructure at hana
        split_ifs at hana with htrim
        obtain rfl := Option.some.inj hana
        exact ⟨rfl, parseSections_ne_nil md htrim⟩
      have hplist : ∀ p ∈ lookupList store cat, 1 ≤ p.frequency ∧ p.sections ≠ [] := by
        intro p hp
        unfold lookupList at hp
        cases hl : lookupStore store cat with
        | none => rw [hl] at hp; simp at hp
        | some ps =>
            rw [hl] at hp
            simp only [Option.getD_some] at hp
            exact (hs _ (lookupStore_mem hl)).2 p hp
      simp only [learnDoc, hana]
      split_ifs with hsimf
      · apply setStore_ok _ _ _ hs
        constructor
        · intro hc
          apply (show lookupList store cat ≠ [] from ?_)
          · have hlen := updateFirstMatch_length
              (fun p => patternSimilar p pattern)
              (fun p => mergePattern p pattern) (lookupList store cat)
            rw [hc] at hlen
            exact List.length_eq_zero.mp hlen.symm
          · obtain ⟨q, hq, -⟩ := List.any_eq_true.mp hsimf
            intro hnil
            rw [hnil] at hq
            simp at hq
        · intro p hp
          rcases mem_updateFirstMatch hp with h1 | ⟨y, hy, rfl⟩
          · exact hplist p h1
          · refine ⟨?_, ?_⟩
            · have := (hplist y hy).1
              simp only [mergePattern]
              omega
            · simp only [mergePattern]
              exact mergeSections_ne_nil _ _ (hplist y hy).2
      · apply setStore_ok _ _ _ hs
        constructor
        · simp
        · intro p hp
          rcases List.mem_append.mp hp with h1 | h1
          · exact hplist p h1
          · rw [List.mem_singleton] at h1
            subst h1
            exact ⟨by rw [hpat.1], hpat.2⟩

end InvariantLemmas

/-- Claim C10: after any sequence of learn operations starting from the empty
store, every present category maps to a non-empty pattern list whose patterns
all have frequency at least 1 and a non-empty section list; consequently the
best-pattern query on any present category returns a pattern rather than an
undefined element. -/
theorem store_invariant (ops : List (Str × Str)) :
    StoreOK (runLearns [] ops) ∧
      ∀ c : Str, (lookupStore (runLearns [] ops) c).isSome = true →
        ((bestPatternForCategory (runLearns [] ops) c).1).isSome = true := by
  have hok : StoreOK (runLearns [] ops) := by
    have hstep : ∀ s, StoreOK s → StoreOK (runLearns s ops) := by
      induction ops with
      | nil => intro s h; exact h
      | cons op rest ih =>
          intro s h
          exact ih _ (learnDoc_ok s op.1 op.2 h)
    exact hstep [] (fun e he => absurd he (List.not_mem_nil e))
  refine ⟨hok, ?_⟩
  intro c hsome
  obtain ⟨ps, hl⟩ := Option.isSome_iff_exists.mp hsome
  have hne : ps ≠ [] := (hok _ (lookupStore_mem hl)).1
  simp only [bestPatternForCategory, hl]
  cases hsort : sortByFreqDesc ps with
  | nil =>
      exfalso
      apply hne
      unfold sortByFreqDesc at hsort
      have hp := sortBy_perm (fun a b => decide (b.frequency ≤ a.frequency)) ps
      rw [hsort] at hp
      exact hp.symm.eq_nil
  | cons a b => simp [hsort]

/-- Claim C10, witness: after learning one document for category "go", the
store satisfies the invariant and the query on "go" finds a pattern. -/
theorem store_invariant_witness :
    StoreOK (runLearns [] [(str "go", str "# A\nx")]) ∧
      ((bestPatternForCategory (runLearns [] [(str "go", str "# A\nx")])
        (str "go")).1).isSome = true :=
  ⟨(store_invariant [(str "go", str "# A\nx")]).1,
    (store_invariant [(str "go", str "# A\nx")]).2 (str "go") (by decide)⟩

section EndToEnd

/-- The learning document of the end-to-end scenario: four sections titled
Introduction, Installation, Usage and License. -/
def doc7 : Str :=
  str "# Introduction\nThis project does things.\n# Installation\nRun installer.\n# Usage\nRun it.\n# License\nMIT"

/-- The target repository of the end-to-end scenario: a JavaScript repository
(language field spelled to match the learned category key) with no license
metadata. -/
def repo7 : Repository :=
  { name := some (str "webapp"), full_name := some (str "alice/webapp"),
    description := some (str "A small demo application"),
    language := some (str "javascript"), topics := none, license := none,
    owner := some ⟨str "alice"⟩ }

end EndToEnd

set_option maxRecDepth 100000 in
/-- Claim C7: after learning doc7 under category "javascript" into an empty
store, synthesizing a README for a different JavaScript repository without
license metadata succeeds, contains the headings of the four learned sections
in their learned order, and renders the License section as the generic
"terms in repository" fallback sentence. -/
theorem end_to_end_learn_then_synthesize :
    exceptOk (generateReadmeFromLearning
        (learnDoc [] (str "javascript") doc7) repo7).1 = true ∧
      seqContains
        [str "# Introduction", str "# Installation", str "# Usage", str "# License"]
        (getOk (generateReadmeFromLearning
          (learnDoc [] (str "javascript") doc7) repo7).1) = true ∧
      containsSub (getOk (generateReadmeFromLearning
          (learnDoc [] (str "javascript") doc7) repo7).1)
        licenseFallbackSentence = true := by
  refine ⟨by decide, by decide, by decide⟩

end ReadmeLearning
